import Mathlib

/-!
Verification of the `report_urlbytes.py` day-splitting download / incremental
write / retry pipeline.  JSON values decoded by `json` are modelled by the
inductive `Json` (numbers as `Int`; the repository's claims do not depend on
float formatting).  Python `dict`s are modelled as association lists with
unique-key insertion semantics (`insertKV`: updating an existing key keeps its
position, a new key is appended — exactly CPython dict assignment), and
`lookup` is `dict.get`.
-/

namespace Report

inductive Json where
  | null
  | bool (b : Bool)
  | num (n : Int)
  | str (s : String)
  | arr (xs : List Json)
  | obj (kvs : List (String × Json))

/-- A normalized record: a Python dict from field name to JSON value. -/
abbrev Record := List (String × Json)

/-- `dict.get(key)` (returns `None` when absent). -/
def lookup : Record → String → Option Json
  | [], _ => none
  | (k, v) :: rest, key => if k = key then some v else lookup rest key

/-- `d[key] = v`: update in place if the key exists (keeping its position,
as CPython dicts do), otherwise append the new pair. -/
def insertKV : Record → String → Json → Record
  | [], key, v => [(key, v)]
  | (k, w) :: rest, key, v =>
    if k = key then (key, v) :: rest else (k, w) :: insertKV rest key v

/-- `d.update(kvs)`: assign every pair of `kvs` in order. -/
def updateAll (r : Record) (kvs : List (String × Json)) : Record :=
  kvs.foldl (fun acc kv => insertKV acc kv.1 kv.2) r

/-- Python truthiness of a JSON-decoded value (`None`, `False`, `0`, `""`,
`[]`, and the empty dict are falsy). -/
def truthy : Json → Bool
  | .null => false
  | .bool b => b
  | .num n => n != 0
  | .str s => s != ""
  | .arr xs => !xs.isEmpty
  | .obj kvs => !kvs.isEmpty

-- ---------------------------------------------------------------------------
-- Python `str()` of JSON-decoded values (used for column names).
-- Exact on scalars; containers follow CPython `repr` for printable input
-- (the only place this is used is `str(c.get("name") ...)` on column entries).
-- ---------------------------------------------------------------------------

def squote : Char := Char.ofNat 39

def dquote : Char := Char.ofNat 34

def pyEscChar (q c : Char) : List Char :=
  if c = '\\' then ['\\', '\\']
  else if c = q then ['\\', q]
  else if c = '\n' then ['\\', 'n']
  else if c = '\r' then ['\\', 'r']
  else if c = '\t' then ['\\', 't']
  else [c]

/-- CPython `repr` of a `str`: single quotes unless the string contains a
single quote and no double quote; standard escapes. -/
def pyReprStr (s : String) : String :=
  let q := if s.data.contains squote && !(s.data.contains dquote) then dquote else squote
  String.mk (q :: s.data.foldr (fun c acc => pyEscChar q c ++ acc) [q])

mutual

def pyRepr : Json → String
  | .null => "None"
  | .bool true => "True"
  | .bool false => "False"
  | .num n => toString n
  | .str s => pyReprStr s
  | .arr xs => "[" ++ pyReprList xs ++ "]"
  | .obj kvs => "\x7b" ++ pyReprObj kvs ++ "\x7d"

def pyReprList : List Json → String
  | [] => ""
  | [x] => pyRepr x
  | x :: y :: rest => pyRepr x ++ ", " ++ pyReprList (y :: rest)

def pyReprObj : List (String × Json) → String
  | [] => ""
  | [(k, v)] => pyReprStr k ++ ": " ++ pyRepr v
  | (k, v) :: p :: rest => pyReprStr k ++ ": " ++ pyRepr v ++ ", " ++ pyReprObj (p :: rest)

end

/-- Python `str()` of a JSON-decoded value. -/
def pyStr : Json → String
  | .str s => s
  | v => pyRepr v

-- ---------------------------------------------------------------------------
-- `_flatten_dict` (report_urlbytes.py lines 134-142): deep key-path
-- flattening with `.` as separator.  `flattenObj` lists the leaf pairs in
-- the traversal order in which the Python code assigns them; `_flatten_dict`
-- then builds the dict by assigning them in that order, which is exactly
-- what the nested `out[key] = v` / `out.update(...)` calls produce.
-- ---------------------------------------------------------------------------

def mkKey (parent k : String) : String :=
  if parent = "" then k else parent ++ "." ++ k

mutual

def flattenVal (key : String) (v : Json) : List (String × Json) :=
  match v with
  | .obj kvs => flattenObj kvs key
  | x => [(key, x)]

def flattenObj (kvs : List (String × Json)) (parent : String) : List (String × Json) :=
  match kvs with
  | [] => []
  | (k, v) :: rest => flattenVal (mkKey parent k) v ++ flattenObj rest parent

end

def _flatten_dict (kvs : List (String × Json)) : Record :=
  updateAll [] (flattenObj kvs "")

-- ---------------------------------------------------------------------------
-- String ordering (Python compares `str` lexicographically by code point;
-- `Char <` in Lean is `<` on the code point).
-- ---------------------------------------------------------------------------

def charListLt : List Char → List Char → Bool
  | [], [] => false
  | [], _ :: _ => true
  | _ :: _, [] => false
  | a :: as, b :: bs => if a < b then true else if b < a then false else charListLt as bs

/-- Python `a <= b` on strings. -/
def strLe (a b : String) : Bool := !(charListLt b.data a.data)

-- ---------------------------------------------------------------------------
-- `_records_from_response` (lines 145-212): normalize a decoded JSON payload
-- into a list of flat records.
-- ---------------------------------------------------------------------------

/-- `payload.get(k)` when it is a list, else `none`. -/
def getArr (kvs : List (String × Json)) (k : String) : Option (List Json) :=
  match lookup kvs k with
  | some (.arr xs) => some xs
  | _ => none

/-- `payload.get(k)` when it is a dict, else `none`. -/
def getObj (kvs : List (String × Json)) (k : String) : Option (List (String × Json)) :=
  match lookup kvs k with
  | some (.obj o) => some o
  | _ => none

/-- `str(c.get("name") if isinstance(c, dict) else c)` (line 159). -/
def columnEntryName (c : Json) : String :=
  match c with
  | .obj kvs => pyStr ((lookup kvs "name").getD .null)
  | _ => pyStr c

/-- `cols[i] if i < len(cols) else f"col{i}"` (line 162). -/
def colNameAt (names : List String) (i : Nat) : String :=
  match names.get? i with
  | some n => n
  | none => "col" ++ toString i

/-- The dict comprehension of line 162: zip a list row positionally. -/
def buildRowRec (names : List String) (items : List Json) : Record :=
  items.enum.foldl (fun rec iv => insertKV rec (colNameAt names iv.1) iv.2) []

/-- One row of the columns+rows branch: list rows are zipped, dict rows pass
through unchanged, anything else is skipped (lines 160-165). -/
def rowToRecord (names : List String) (row : Json) : Option Record :=
  match row with
  | .arr items => some (buildRowRec names items)
  | .obj kvs => some kvs
  | _ => none

/-- `records.append(rec)` under a guard: append the record when the branch
produced one, otherwise leave the accumulator unchanged. -/
def appendOpt (recs : List Record) (r? : Option Record) : List Record :=
  match r? with
  | some r => recs ++ [r]
  | none => recs

def rowsToRecords (names : List String) (rows : List Json) : List Record :=
  rows.foldl (fun recs row => appendOpt recs (rowToRecord names row)) []

/-- One item of the `data: [...]` branch (lines 170-186).  `if dims:` skips a
falsy (empty) dict, which coincides with `updateAll` of `[]` being a no-op. -/
def dataItemRec (kvs : List (String × Json)) : Record :=
  let dims := getObj kvs "dimensions"
  let mets := getObj kvs "metrics"
  let r1 := match dims with
    | some d => updateAll [] d
    | none => []
  let r2 := match mets with
    | some m => updateAll r1 m
    | none => r1
  let r3 := kvs.foldl (fun r kv =>
    if kv.1 = "dimensions" ∨ kv.1 = "metrics" then r
    else match kv.2 with
      | .obj _ => r
      | .arr _ => r
      | v => insertKV r kv.1 v) r2
  if r3.isEmpty then _flatten_dict kvs else r3

/-- Non-dict items of the `data` list are skipped (lines 170-171). -/
def dataItemOpt (item : Json) : Option Record :=
  match item with
  | .obj kvs => some (dataItemRec kvs)
  | _ => none

def dataRecords (items : List Json) : List Record :=
  items.foldl (fun recs item => appendOpt recs (dataItemOpt item)) []

/-- Truthiness of the `metrics_hint` parameter (`None` or `[]` are falsy). -/
def hintTruthy : Option (List String) → Bool
  | some l => !l.isEmpty
  | none => false

/-- `metric_map.get(m, {}).keys()` (line 195). -/
def keysOfMetric (mm : List (String × Json)) (m : String) : List String :=
  match lookup mm m with
  | some (.obj d) => d.map (fun kv => kv.1)
  | _ => []

/-- `metric_map.get(m, {}).get(u)` (line 199). -/
def metricValAt (mm : List (String × Json)) (m u : String) : Option Json :=
  match lookup mm m with
  | some (.obj d) => lookup d u
  | _ => none

/-- `sorted(urls)` where `urls` is the union of the hinted metrics' key sets:
the distinct URLs in ascending code-point order (lines 193-196). -/
def sortedUrls (mm : List (String × Json)) (hints : List String) : List String :=
  List.insertionSort (fun a b => strLe a b = true)
    ((hints.foldl (fun acc m => acc ++ keysOfMetric mm m) []).dedup)

/-- The record built for one URL (lines 197-202): `url` plus each hinted
metric whose value is neither `None`/absent nor a dict nor a list. -/
def metricRecFor (mm : List (String × Json)) (hints : List String) (u : String) : Record :=
  hints.foldl (fun rec m =>
    match metricValAt mm m u with
    | some .null => rec
    | some (.obj _) => rec
    | some (.arr _) => rec
    | some v => insertKV rec m v
    | none => rec) [("url", .str u)]

def metricMapRecords (mm : List (String × Json)) (hints : List String) : List Record :=
  (sortedUrls mm hints).map (metricRecFor mm hints)

/-- Lines 189-205: the branches taken when the payload is a dict without a
list-valued columns+rows pair and without a list-valued `data`: the
metric→url→value map (the candidate map is the payload itself when every
hinted name is one of its keys, otherwise its dict-valued `data`), then the
deep-flattening fallback. -/
def objFallback (kvs : List (String × Json)) (metrics_hint : Option (List String)) :
    List Record :=
  match getArr kvs "data" with
  | some items => dataRecords items
  | none =>
    let hints := metrics_hint.getD []
    let metric_map :=
      if hintTruthy metrics_hint && hints.all (fun m => (lookup kvs m).isSome) then
        some kvs
      else getObj kvs "data"
    match metric_map with
    | some mm =>
      if hintTruthy metrics_hint && hints.all (fun m => (getObj mm m).isSome) then
        metricMapRecords mm hints
      else [_flatten_dict kvs]
    | none => [_flatten_dict kvs]

/-- One element of a list payload (lines 207-210): dicts are deep-flattened,
anything else becomes `{"value": element}`. -/
def listItemRec (it : Json) : Record :=
  match it with
  | .obj kvs => _flatten_dict kvs
  | _ => [("value", it)]

/-- `_records_from_response(payload, metrics_hint)` (lines 145-212), with the
dispatch order of the source: columns+rows, then list-valued `data` /
metric-map / deep flattening (`objFallback`), then lists and scalars. -/
def _records_from_response (payload : Json) (metrics_hint : Option (List String)) :
    List Record :=
  match payload with
  | .obj kvs =>
    match getArr kvs "columns", getArr kvs "rows" with
    | some cols, some rows => rowsToRecords (cols.map columnEntryName) rows
    | some _, none => objFallback kvs metrics_hint
    | none, _ => objFallback kvs metrics_hint
  | .arr xs => xs.map listItemRec
  | v => [[("value", v)]]

-- ---------------------------------------------------------------------------
-- Hostname helpers (lines 272-303).
-- ---------------------------------------------------------------------------

def startsWithChars : List Char → List Char → Bool
  | [], _ => true
  | _ :: _, [] => false
  | p :: ps, c :: cs => p = c && startsWithChars ps cs

/-- `pat in text` for strings. -/
def containsSeq (pat : List Char) : List Char → Bool
  | [] => startsWithChars pat []
  | c :: rest => startsWithChars pat (c :: rest) || containsSeq pat rest

/-- CPython `urlsplit` scheme characters (ASCII letters, digits, `+`, `-`,
`.`). -/
def isSchemeChar (c : Char) : Bool := c.isAlpha || c.isDigit || c = '+' || c = '-' || c = '.'

/-- Split at the first `:`; `none` when there is no colon. -/
def splitFirstColon : List Char → Option (List Char × List Char)
  | [] => none
  | c :: cs =>
    if c = ':' then some ([], cs)
    else
      match splitFirstColon cs with
      | some (b, a) => some (c :: b, a)
      | none => none

/-- `urlparse(v).netloc` for a `str` argument: model of CPython `urlsplit`
(3.10+): a scheme prefix (first char an ASCII letter, then scheme characters,
up to the first `:`) is removed, and the netloc is the text after a leading
`//`, up to the first `/`, `?` or `#`, else the empty string.  (The
bracketed-IPv6 validation errors of recent CPython are outside this model;
the caller catches them and they do not occur in any input considered here.) -/
def urlparseNetloc (v : String) : String :=
  let cs := v.data
  let rest :=
    match splitFirstColon cs with
    | some (before, after) =>
      match before with
      | [] => cs
      | c0 :: rest0 => if c0.isAlpha && rest0.all isSchemeChar then after else cs
    | none => cs
  match rest with
  | '/' :: '/' :: r => String.mk (r.takeWhile (fun c => !(c = '/' || c = '?' || c = '#')))
  | _ => ""

/-- Python `str.isspace` characters that occur in ASCII text (`str.strip`
also removes some further Unicode whitespace, which no input here contains). -/
def isPySpace (c : Char) : Bool :=
  c = ' ' || c = '\t' || c = '\n' || c = '\r' || c = '\x0b' || c = '\x0c'

/-- `value.strip()`. -/
def pyStrip (s : String) : String :=
  String.mk (((s.data.dropWhile isPySpace).reverse.dropWhile isPySpace).reverse)

/-- `_extract_hostname` (lines 272-288).  `v.split("/", 1)[0]` is the text
before the first `/`. -/
def _extract_hostname (value : Json) : String :=
  match value with
  | .str s =>
    let v := pyStrip s
    if v = "" then ""
    else if containsSeq "://".data v.data then urlparseNetloc v
    else
      let v2 := if startsWithChars "//".data v.data then String.mk (v.data.drop 2) else v
      String.mk (v2.data.takeWhile (fun c => !(c = '/')))
  | _ => ""

def candidateKeys : List String := ["hostname.url", "url", "request.url"]

/-- The candidate-search loop of `_ensure_hostname_column` (lines 296-301):
the first value among the candidate keys that is a non-empty string. -/
def findCandidate (rec : Record) : List String → Option String
  | [] => none
  | k :: ks =>
    match lookup rec k with
    | some (.str s) => if s = "" then findCandidate rec ks else some s
    | _ => findCandidate rec ks

/-- The per-record body of `_ensure_hostname_column` (lines 293-303). -/
def ensureHostnameRec (rec : Record) : Record :=
  if (lookup rec "hostname").any truthy then rec
  else
    match findCandidate rec candidateKeys with
    | some s => insertKV rec "hostname" (.str (_extract_hostname (.str s)))
    | none => rec

/-- `_ensure_hostname_column` (lines 291-303); the Python loop mutates each
record of the list in place. -/
def _ensure_hostname_column (recs : List Record) : List Record :=
  recs.map ensureHostnameRec

-- ---------------------------------------------------------------------------
-- Day-range paginator (lines 430-446).  Instants are UTC timestamps measured
-- in seconds from an arbitrary UTC midnight (Python `datetime` UTC arithmetic
-- has fixed 86400-second days); `datetime(dt.year, dt.month, dt.day)` is
-- truncation to the enclosing midnight.
-- ---------------------------------------------------------------------------

def dayLen : Nat := 86400

def truncDay (t : Nat) : Nat := t / dayLen * dayLen

/-- `end_day = datetime(end.y, end.m, end.d); if end_dt > end_day: end_day += 1 day`
(lines 433-435). -/
def endDayBound (e : Nat) : Nat :=
  if truncDay e < e then truncDay e + dayLen else truncDay e

/-- The `while cur < end_day` loop of lines 442-446 (window generation only):
`nxt = min(cur + timedelta(days=1), end_day)`. -/
def windowsFrom (cur e : Nat) : List (Nat × Nat) :=
  if cur < e then
    (cur, min (cur + dayLen) e) :: windowsFrom (min (cur + dayLen) e) e
  else []
termination_by e - cur
decreasing_by
  simp only [dayLen] at *
  omega

/-- All windows the MAX-mode day loop requests for `[s, e)`. -/
def windows (s e : Nat) : List (Nat × Nat) :=
  windowsFrom (truncDay s) (endDayBound e)

-- ---------------------------------------------------------------------------
-- Column schema and CSV writing (lines 217-231 and 503-519).
-- ---------------------------------------------------------------------------

def preferredMax : List String := ["day", "hostname", "url", "timestamp", "cpcode", "interval"]

/-- Key discovery of lines 506-513: first-seen order over the whole batch. -/
def inferKeys (recs : List Record) : List String :=
  recs.foldl (fun keys rec =>
    rec.foldl (fun ks kv => if kv.1 ∈ ks then ks else ks ++ [kv.1]) keys) []

/-- The comparison induced by the sort key of lines 514-515:
`(0, preferred.index(k)) if k in preferred else (1, k)` under Python's
lexicographic tuple order. -/
def keyLe (pref : List String) (a b : String) : Bool :=
  match pref.findIdx? (fun x => x = a), pref.findIdx? (fun x => x = b) with
  | some i, some j => decide (i ≤ j)
  | some _, none => true
  | none, some _ => false
  | none, none => strLe a b

abbrev schemaRel (pref : List String) (a b : String) : Prop := keyLe pref a b = true

/-- `keys.sort(key=srt)` (line 516).  The discovered keys are pairwise
distinct and the sort key is injective on them, so the stable Python sort and
any comparison sort agree. -/
def computeSchema (recs : List Record) : List String :=
  List.insertionSort (schemaRel preferredMax) (inferKeys recs)

/-- `{k: r.get(k, "") for k in keys}` (line 229), in schema order: the cell
values of one written row. -/
def projectRow (keys : List String) (r : Record) : List Json :=
  keys.map (fun k => (lookup r k).getD (.str ""))

/-- One write of a non-empty batch (lines 503-519): when no header has been
written yet the schema is computed from this batch and the header written;
the rows are projected onto the (now frozen) schema. -/
def csvWriteBatch (st : Option (List String)) (recs : List Record) :
    Option (List String) × List (List Json) :=
  match st with
  | some keys => (some keys, recs.map (projectRow keys))
  | none =>
    let keys := computeSchema recs
    (some keys, recs.map (projectRow keys))

/-- The per-day writes of a whole run: empty batches are recorded as no-data
days and never reach the writer (line 497). -/
def runBatches (batches : List (List Record)) : Option (List String) × List (List Json) :=
  batches.foldl (fun acc recs =>
    if recs.isEmpty then acc
    else
      let step := csvWriteBatch acc.1 recs
      (step.1, acc.2 ++ step.2)) (none, [])

-- ---------------------------------------------------------------------------
-- Request outcomes and the three passes (lines 452-500, 559-625, 651-709).
-- One HTTP attempt either fails at transport level (timeout / connection
-- error) or yields a status code and a body that is empty, non-JSON, or a
-- decoded JSON value.
-- ---------------------------------------------------------------------------

inductive BodyContent where
  | empty
  | nonJson
  | json (j : Json)

inductive AttemptOutcome where
  | transportError
  | response (status : Nat) (body : BodyContent)

/-- `rec["day"] = params['start'][:10]` applied to every record of the batch
(lines 493-494 and 581-582). -/
def stampDay (d : String) (recs : List Record) : List Record :=
  recs.map (fun rec => insertKV rec "day" (.str d))

/-- The record batch built from one day's decoded payload: normalize, stamp
the day column, derive the hostname column (lines 492-495 and 580-583). -/
def dayBatch (hint : Option (List String)) (d : String) (j : Json) : List Record :=
  _ensure_hostname_column (stampDay d (_records_from_response j hint))

inductive StepResult where
  | exitCode (n : Nat)
  | noData
  | wrote (recs : List Record)

/-- One window of the main day-splitting pass (lines 458-500): transport
errors exit 2; HTTP status >= 400 prints the error body and exits 1; an empty
body records a no-data day; a non-JSON body exits 1; a batch that normalizes
to zero records records a no-data day; otherwise the batch is written. -/
def mainDayStep (hint : Option (List String)) (d : String) (o : AttemptOutcome) :
    StepResult :=
  match o with
  | .transportError => .exitCode 2
  | .response status body =>
    if 400 ≤ status then .exitCode 1
    else
      match body with
      | .empty => .noData
      | .nonJson => .exitCode 1
      | .json j =>
        let recs := dayBatch hint d j
        if recs.isEmpty then .noData else .wrote recs

inductive OutFormat where
  | csv
  | xlsx
  | json

inductive StdResult where
  | exitCode (n : Nat)
  | emptyBody
  | rawEcho
  | records (recs : List Record)

/-- The standard (non-MAX) pass after the single request (lines 651-709):
transport errors exit 2, status >= 400 prints the error body and exits 1, an
empty body writes an empty output and exits 0, a non-JSON body exits 1 for
CSV/XLSX and echoes the raw text for JSON; otherwise the payload is
normalized (line 709) — with no hostname derivation and no day stamping. -/
def standardStep (fmt : OutFormat) (hint : Option (List String)) (o : AttemptOutcome) :
    StdResult :=
  match o with
  | .transportError => .exitCode 2
  | .response status body =>
    if 400 ≤ status then .exitCode 1
    else
      match body with
      | .empty => .emptyBody
      | .nonJson =>
        match fmt with
        | .json => .rawEcho
        | _ => .exitCode 1
      | .json j => .records (_records_from_response j hint)

/-- One attempt of the retry loop (lines 568-585): transport error, status
>= 400, empty body, non-JSON body and zero normalized records all fail the
attempt (each failure sleeps `retry_wait` and proceeds); otherwise the day's
batch is returned. -/
def attemptRecords (hint : Option (List String)) (d : String) (o : AttemptOutcome) :
    Option (List Record) :=
  match o with
  | .transportError => none
  | .response status body =>
    if 400 ≤ status then none
    else
      match body with
      | .empty => none
      | .nonJson => none
      | .json j =>
        let recs := dayBatch hint d j
        if recs.isEmpty then none else some recs

/-- The per-day `for attempt in range(1, retry_no_data + 1)` loop (lines
563-618), fed the outcome of each successive attempt: the first success
breaks with its batch; the second component counts the failed attempts,
which is also the number of `time.sleep(retry_wait)` calls performed. -/
def retryDayGo (hint : Option (List String)) (d : String) :
    List AttemptOutcome → Option (List Record) × Nat
  | [] => (none, 0)
  | o :: rest =>
    match attemptRecords hint d o with
    | some recs => (some recs, 0)
    | none =>
      let p := retryDayGo hint d rest
      (p.1, p.2 + 1)

/-- The whole retry coordinator (lines 559-625): each no-data day is retried
with at most `maxAttempts` attempts (attempt `k` of day `dy` has outcome
`oracle dy k`); a recovered day contributes its batch length to `total_rows`,
a day whose attempts are exhausted is appended to `still_missing`. -/
def retryPass (hint : Option (List String)) (maxAttempts : Nat)
    (oracle : String → Nat → AttemptOutcome) (days : List String) :
    List String × Nat :=
  days.foldl (fun acc d =>
    match (retryDayGo hint d ((List.range maxAttempts).map (oracle d))).1 with
    | some recs => (acc.1, acc.2 + recs.length)
    | none => (acc.1 ++ [d], acc.2)) ([], 0)

-- ---------------------------------------------------------------------------
-- Auxiliary definitions used to state and prove the properties.
-- ---------------------------------------------------------------------------

/-- The JSON values that survive the check of line 200:
`val is not None and not isinstance(val, (dict, list))`. -/
def scalarOnly : Option Json → Option Json
  | some .null => none
  | some (.obj _) => none
  | some (.arr _) => none
  | some v => some v
  | none => none

def condInsertFold (g : String → Option Json) (ms : List String) (r : Record) : Record :=
  ms.foldl (fun rec m =>
    match g m with
    | some v => insertKV rec m v
    | none => rec) r

/-- Modelled from the spec (§4.1, hostname derivation), for comparison with
the code's per-record step: "if a record has no truthy `hostname` field,
search `hostname.url`, then `url`, then `request.url` for the first non-empty
string value; extract the host ..." and store it in `hostname`. -/
def hostDeriveSpecStep (rec : Record) : Record :=
  if (lookup rec "hostname").any truthy then rec
  else
    match (candidateKeys.filterMap (fun k =>
        match lookup rec k with
        | some (.str s) => if s = "" then none else some s
        | _ => none)).head? with
    | some s => insertKV rec "hostname" (.str (_extract_hostname (.str s)))
    | none => rec

-- ---------------------------------------------------------------------------
-- Dictionary lemmas.
-- ---------------------------------------------------------------------------

theorem lookup_insertKV_self (r : Record) (k : String) (v : Json) :
    lookup (insertKV r k v) k = some v := by
  induction r with
  | nil => simp [insertKV, lookup]
  | cons kv rest ih =>
    obtain ⟨k0, v0⟩ := kv
    by_cases h : k0 = k
    · simp [insertKV, h, lookup]
    · simp [insertKV, h, lookup, ih]

theorem lookup_insertKV_ne (r : Record) (k key : String) (v : Json) (h : key ≠ k) :
    lookup (insertKV r k v) key = lookup r key := by
  induction r with
  | nil => simp [insertKV, lookup, Ne.symm h]
  | cons kv rest ih =>
    obtain ⟨k0, v0⟩ := kv
    by_cases h0 : k0 = k
    · subst h0
      simp [insertKV, lookup, Ne.symm h]
    · simp only [insertKV, if_neg h0]
      by_cases hk : k0 = key
      · simp [lookup, hk]
      · simp [lookup, hk, ih]

theorem isSome_lookup_insertKV (r : Record) (k key : String) (v : Json)
    (h : (lookup r key).isSome = true) :
    (lookup (insertKV r k v) key).isSome = true := by
  by_cases hk : key = k
  · subst hk
    simp [lookup_insertKV_self]
  · rw [lookup_insertKV_ne r k key v hk]
    exact h

theorem insertKV_insertKV (r : Record) (k : String) (v w : Json) :
    insertKV (insertKV r k v) k w = insertKV r k w := by
  induction r with
  | nil => simp [insertKV]
  | cons kv rest ih =>
    obtain ⟨k0, v0⟩ := kv
    by_cases h : k0 = k
    · simp [insertKV, h]
    · simp [insertKV, h, ih]

theorem lookup_foldl_insertKV_not_mem (ps : List (String × Json)) (key : String)
    (h : key ∉ ps.map (fun p => p.1)) :
    ∀ r : Record, lookup (ps.foldl (fun acc p => insertKV acc p.1 p.2) r) key = lookup r key := by
  induction ps with
  | nil => intro r; rfl
  | cons p rest ih =>
    intro r
    simp only [List.map_cons, List.mem_cons] at h
    push_neg at h
    simp only [List.foldl_cons]
    rw [ih h.2, lookup_insertKV_ne _ _ _ _ h.1]

theorem lookup_foldl_insertKV_mem (ps : List (String × Json)) (key : String) (v : Json)
    (hnd : (ps.map (fun p => p.1)).Nodup) (hmem : (key, v) ∈ ps) :
    ∀ r : Record, lookup (ps.foldl (fun acc p => insertKV acc p.1 p.2) r) key = some v := by
  induction ps with
  | nil => cases hmem
  | cons p rest ih =>
    intro r
    simp only [List.map_cons, List.nodup_cons] at hnd
    rcases List.mem_cons.mp hmem with heq | hmem2
    · subst heq
      simp only [List.foldl_cons]
      rw [lookup_foldl_insertKV_not_mem rest key hnd.1, lookup_insertKV_self]
    · exact ih hnd.2 hmem2 _

theorem appendOpt_none (recs : List Record) : appendOpt recs none = recs := rfl

theorem appendOpt_some (recs : List Record) (r : Record) :
    appendOpt recs (some r) = recs ++ [r] := rfl

theorem foldl_appendOpt_filterMap {α : Type} (f : α → Option Record) (l : List α) :
    ∀ acc : List Record,
      l.foldl (fun out x => appendOpt out (f x)) acc = acc ++ l.filterMap f := by
  induction l with
  | nil => intro acc; simp
  | cons x rest ih =>
    intro acc
    cases hfx : f x with
    | none =>
      simp only [List.foldl_cons, hfx, appendOpt_none, List.filterMap_cons]
      exact ih acc
    | some r =>
      simp only [List.foldl_cons, hfx, appendOpt_some, List.filterMap_cons]
      rw [ih (acc ++ [r])]
      simp

-- ---------------------------------------------------------------------------
-- Conditional-insert folds (the shape of `metricRecFor`).
-- ---------------------------------------------------------------------------

theorem metricRecFor_eq_condInsertFold (mm : List (String × Json)) (hints : List String)
    (u : String) :
    metricRecFor mm hints u =
      condInsertFold (fun m => scalarOnly (metricValAt mm m u)) hints [("url", .str u)] := by
  rw [metricRecFor, condInsertFold]
  apply List.foldl_ext
  intro rec m hm
  cases hv : metricValAt mm m u with
  | none => rfl
  | some v => cases v <;> rfl

theorem lookup_condInsertFold_not_mem (g : String → Option Json) (ms : List String)
    (key : String) (h : key ∉ ms) :
    ∀ r : Record, lookup (condInsertFold g ms r) key = lookup r key := by
  induction ms with
  | nil => intro r; rfl
  | cons m rest ih =>
    intro r
    simp only [List.mem_cons] at h
    push_neg at h
    simp only [condInsertFold, List.foldl_cons]
    cases hg : g m with
    | none => exact ih h.2 r
    | some v =>
      have := ih h.2 (insertKV r m v)
      simp only [condInsertFold] at this
      rw [this, lookup_insertKV_ne _ _ _ _ h.1]

theorem lookup_condInsertFold_mem (g : String → Option Json) (ms : List String)
    (m : String) (hnd : ms.Nodup) (hmem : m ∈ ms) :
    ∀ r : Record,
      lookup (condInsertFold g ms r) m =
        match g m with
        | some v => some v
        | none => lookup r m := by
  induction ms with
  | nil => cases hmem
  | cons m0 rest ih =>
    intro r
    simp only [List.nodup_cons] at hnd
    rcases List.mem_cons.mp hmem with rfl | hmem2
    · simp only [condInsertFold, List.foldl_cons]
      cases hg : g m with
      | none =>
        have := lookup_condInsertFold_not_mem g rest m hnd.1 r
        simp only [condInsertFold] at this
        exact this
      | some v =>
        have := lookup_condInsertFold_not_mem g rest m hnd.1 (insertKV r m v)
        simp only [condInsertFold] at this
        rw [this, lookup_insertKV_self]
    · have hne : m ≠ m0 := fun hh => hnd.1 (hh ▸ hmem2)
      simp only [condInsertFold, List.foldl_cons]
      cases hg : g m0 with
      | none =>
        have h2 := ih hnd.2 hmem2 r
        simp only [condInsertFold] at h2
        exact h2
      | some v =>
        have h2 := ih hnd.2 hmem2 (insertKV r m0 v)
        simp only [condInsertFold] at h2
        dsimp only
        rw [h2]
        cases g m with
        | some w => rfl
        | none => exact lookup_insertKV_ne r m0 m v hne

-- ---------------------------------------------------------------------------
-- Candidate-search lemmas.
-- ---------------------------------------------------------------------------

theorem findCandidate_insertKV (rec : Record) (k : String) (x : Json) (ks : List String)
    (h : k ∉ ks) : findCandidate (insertKV rec k x) ks = findCandidate rec ks := by
  induction ks with
  | nil => rfl
  | cons k0 rest ih =>
    have h1 : k ≠ k0 := fun hh => h (hh ▸ List.mem_cons_self _ _)
    have h2 : k ∉ rest := fun hh => h (List.mem_cons_of_mem _ hh)
    simp only [findCandidate, lookup_insertKV_ne rec k k0 x (Ne.symm h1)]
    cases lookup rec k0 with
    | none => exact ih h2
    | some v =>
      cases v with
      | str s =>
        by_cases hs : s = "" <;> simp [hs, ih h2]
      | null => exact ih h2
      | bool b => exact ih h2
      | num n => exact ih h2
      | arr xs => exact ih h2
      | obj kvs => exact ih h2

theorem findCandidate_eq_head (rec : Record) (ks : List String) :
    findCandidate rec ks =
      (ks.filterMap (fun k =>
        match lookup rec k with
        | some (.str s) => if s = "" then none else some s
        | _ => none)).head? := by
  induction ks with
  | nil => rfl
  | cons k0 rest ih =>
    simp only [findCandidate, List.filterMap_cons]
    cases lookup rec k0 with
    | none => exact ih
    | some v =>
      cases v with
      | str s =>
        by_cases hs : s = "" <;> simp [hs, ih]
      | null => exact ih
      | bool b => exact ih
      | num n => exact ih
      | arr xs => exact ih
      | obj kvs => exact ih

-- ---------------------------------------------------------------------------
-- The lexicographic character order is a strict linear order, hence `strLe`
-- and the schema comparison `keyLe` are total preorders.
-- ---------------------------------------------------------------------------

theorem charListLt_asymm : ∀ as bs, charListLt as bs = true → charListLt bs as = false
  | [], [] => by simp [charListLt]
  | [], _ :: _ => by simp [charListLt]
  | _ :: _, [] => by simp [charListLt]
  | a :: as, b :: bs => by
    by_cases hab : a < b
    · simp [charListLt, hab, lt_asymm hab]
    · by_cases hba : b < a
      · simp [charListLt, hab, hba]
      · simp only [charListLt, if_neg hab, if_neg hba]
        exact charListLt_asymm as bs

theorem charListLt_connex : ∀ as bs,
    charListLt as bs = false → charListLt bs as = false → as = bs
  | [], [] => by simp
  | [], _ :: _ => by simp [charListLt]
  | _ :: _, [] => by simp [charListLt]
  | a :: as, b :: bs => by
    by_cases hab : a < b
    · simp [charListLt, hab]
    · by_cases hba : b < a
      · simp [charListLt, hab, hba]
      · have hEq : a = b := le_antisymm (not_lt.mp hba) (not_lt.mp hab)
        subst hEq
        simp only [charListLt, if_neg hab, if_neg hba]
        intro h1 h2
        rw [charListLt_connex as bs h1 h2]

theorem charListLt_trans : ∀ as bs cs,
    charListLt as bs = true → charListLt bs cs = true → charListLt as cs = true
  | _, [], [] => by simp [charListLt]
  | _, _ :: _, [] => by simp [charListLt]
  | [], [], _ :: _ => by simp [charListLt]
  | [], _ :: _, _ :: _ => by simp [charListLt]
  | _ :: _, [], _ :: _ => by simp [charListLt]
  | a :: as, b :: bs, c :: cs => by
    intro h1 h2
    by_cases hab : a < b
    · by_cases hbc : b < c
      · simp [charListLt, lt_trans hab hbc]
      · by_cases hcb : c < b
        · simp [charListLt, hbc, hcb] at h2
        · have hEq : b = c := le_antisymm (not_lt.mp hcb) (not_lt.mp hbc)
          subst hEq
          simp [charListLt, hab]
    · by_cases hba : b < a
      · simp [charListLt, hab, hba] at h1
      · have hEq : a = b := le_antisymm (not_lt.mp hba) (not_lt.mp hab)
        subst hEq
        simp only [charListLt, if_neg hab, if_neg hba] at h1
        by_cases hbc : a < c
        · simp [charListLt, hbc]
        · by_cases hcb : c < a
          · simp [charListLt, hbc, hcb] at h2
          · have hEq2 : a = c := le_antisymm (not_lt.mp hcb) (not_lt.mp hbc)
            subst hEq2
            simp only [charListLt, if_neg hbc] at h2 ⊢
            exact charListLt_trans as bs cs h1 h2

theorem string_eq_of_data_eq {a b : String} (h : a.data = b.data) : a = b := by
  cases a
  cases b
  exact congrArg String.mk h

theorem strLe_total (a b : String) : strLe a b = true ∨ strLe b a = true := by
  by_cases h1 : charListLt b.data a.data = true
  · right
    have h2 := charListLt_asymm _ _ h1
    simp [strLe, h2]
  · left
    simp only [Bool.not_eq_true] at h1
    simp [strLe, h1]

theorem strLe_trans (a b c : String) (h1 : strLe a b = true) (h2 : strLe b c = true) :
    strLe a c = true := by
  simp only [strLe, Bool.not_eq_true'] at h1 h2 ⊢
  by_cases hca : charListLt c.data a.data = true
  · exfalso
    by_cases hab : charListLt a.data b.data = true
    · have h3 := charListLt_trans _ _ _ hca hab
      rw [h3] at h2
      simp at h2
    · have hab2 : charListLt a.data b.data = false := Bool.eq_false_iff.mpr hab
      have hd := charListLt_connex a.data b.data hab2 h1
      rw [← hd, hca] at h2
      simp at h2
  · exact Bool.eq_false_iff.mpr hca

theorem strLe_antisymm (a b : String) (h1 : strLe a b = true) (h2 : strLe b a = true) :
    a = b := by
  simp only [strLe, Bool.not_eq_true'] at h1 h2
  exact string_eq_of_data_eq (charListLt_connex a.data b.data h2 h1)

theorem keyLe_total (pref : List String) (a b : String) :
    keyLe pref a b = true ∨ keyLe pref b a = true := by
  unfold keyLe
  cases hfa : pref.findIdx? (fun x => x = a) with
  | none =>
    cases hfb : pref.findIdx? (fun x => x = b) with
    | none => exact strLe_total a b
    | some j => right; rfl
  | some i =>
    cases hfb : pref.findIdx? (fun x => x = b) with
    | none => left; rfl
    | some j =>
      rcases Nat.le_total i j with h | h
      · left; simpa using h
      · right; simpa using h

theorem keyLe_trans (pref : List String) (a b c : String) (h1 : keyLe pref a b = true)
    (h2 : keyLe pref b c = true) : keyLe pref a c = true := by
  unfold keyLe at h1 h2 ⊢
  cases hfa : pref.findIdx? (fun x => x = a) <;>
    cases hfb : pref.findIdx? (fun x => x = b) <;>
      cases hfc : pref.findIdx? (fun x => x = c) <;>
        rw [hfa, hfb] at h1 <;> rw [hfb, hfc] at h2 <;> simp_all [decide_eq_true_eq]
  · exact strLe_trans a b c h1 h2
  · omega

instance (pref : List String) : IsTotal String (schemaRel pref) := ⟨keyLe_total pref⟩

instance (pref : List String) : IsTrans String (schemaRel pref) :=
  ⟨fun a b c => keyLe_trans pref a b c⟩

instance : IsTotal String (fun a b => strLe a b = true) := ⟨strLe_total⟩

instance : IsTrans String (fun a b => strLe a b = true) := ⟨strLe_trans⟩

-- ---------------------------------------------------------------------------
-- Paginator lemmas: the day loop emits exactly the consecutive whole days
-- from the truncated start to the rounded-up end.
-- ---------------------------------------------------------------------------

theorem windowsFrom_add_mul : ∀ (k cur : Nat),
    windowsFrom cur (cur + dayLen * k) =
      (List.range k).map (fun i => (cur + dayLen * i, cur + dayLen * (i + 1))) := by
  intro k
  induction k with
  | zero =>
    intro cur
    rw [windowsFrom]
    simp
  | succ n ih =>
    intro cur
    rw [windowsFrom]
    have hd : dayLen = 86400 := rfl
    have hpos : 0 < dayLen * (n + 1) := Nat.mul_pos (by rw [hd]; omega) (Nat.succ_pos n)
    have hlt : cur < cur + dayLen * (n + 1) := Nat.lt_add_of_pos_right hpos
    have h1 : dayLen ≤ dayLen * (n + 1) := Nat.le_mul_of_pos_right dayLen (Nat.succ_pos n)
    have hmin : min (cur + dayLen) (cur + dayLen * (n + 1)) = cur + dayLen :=
      min_eq_left (Nat.add_le_add_left h1 cur)
    rw [if_pos hlt, hmin]
    have harr : cur + dayLen * (n + 1) = (cur + dayLen) + dayLen * n := by ring
    rw [harr, ih (cur + dayLen)]
    rw [List.range_succ_eq_map, List.map_cons, List.map_map]
    refine congrArg₂ List.cons ?_ ?_
    · refine congrArg₂ Prod.mk ?_ ?_ <;> ring
    · refine List.map_congr_left fun i hi => ?_
      simp only [Function.comp_apply, Nat.succ_eq_add_one]
      refine congrArg₂ Prod.mk ?_ ?_ <;> ring

theorem dayLen_dvd_truncDay (t : Nat) : dayLen ∣ truncDay t :=
  ⟨t / dayLen, by rw [truncDay]; exact Nat.mul_comm _ _⟩

theorem dayLen_dvd_endDayBound (e : Nat) : dayLen ∣ endDayBound e := by
  rw [endDayBound]
  split
  · exact Nat.dvd_add (dayLen_dvd_truncDay e) (dvd_refl dayLen)
  · exact dayLen_dvd_truncDay e

/-- Closed form of the per-day windows: consecutive whole days from the
truncated start up to the rounded-up end boundary. -/
theorem windows_formula (s e : Nat) :
    windows s e =
      (List.range ((endDayBound e - truncDay s) / dayLen)).map
        (fun i => (truncDay s + dayLen * i, truncDay s + dayLen * (i + 1))) := by
  have hd : dayLen = 86400 := rfl
  by_cases h : endDayBound e ≤ truncDay s
  · rw [windows, windowsFrom, if_neg (by omega)]
    have h0 : endDayBound e - truncDay s = 0 := by omega
    rw [h0]
    simp
  · have hdvd : dayLen ∣ (endDayBound e - truncDay s) :=
      Nat.dvd_sub' (dayLen_dvd_endDayBound e) (dayLen_dvd_truncDay s)
    have hq := Nat.div_mul_cancel hdvd
    have hb : endDayBound e =
        truncDay s + dayLen * ((endDayBound e - truncDay s) / dayLen) := by
      generalize hx : (endDayBound e - truncDay s) / dayLen = q at hq
      rw [hd] at hq ⊢
      omega
    rw [windows]
    nth_rewrite 1 [hb]
    exact windowsFrom_add_mul _ _

-- ---------------------------------------------------------------------------
-- Writer lemmas: once the schema is frozen, every later batch only projects.
-- ---------------------------------------------------------------------------

theorem runBatches_frozen (S : List String) :
    ∀ (batches : List (List Record)) (out : List (List Json)),
      batches.foldl (fun acc recs =>
        if recs.isEmpty then acc
        else
          let step := csvWriteBatch acc.1 recs
          (step.1, acc.2 ++ step.2)) (some S, out) =
      (some S,
       out ++ ((batches.filter (fun r => !r.isEmpty)).map
         (fun recs => recs.map (projectRow S))).flatten) := by
  intro batches
  have hstep : ∀ recs, csvWriteBatch (some S) recs = (some S, recs.map (projectRow S)) :=
    fun _ => rfl
  induction batches with
  | nil => intro out; simp
  | cons b rest ih =>
    intro out
    by_cases hb : b.isEmpty
    · simp [hb, ih, List.filter_cons]
    · simp only [List.foldl_cons, if_neg hb, hstep]
      rw [ih]
      simp [List.filter_cons, hb, List.append_assoc]

theorem runBatches_spec (batches : List (List Record)) (b : List Record)
    (hfind : batches.find? (fun r => !r.isEmpty) = some b) :
    runBatches batches =
      (some (computeSchema b),
       ((batches.filter (fun r => !r.isEmpty)).map
         (fun recs => recs.map (projectRow (computeSchema b)))).flatten) := by
  induction batches with
  | nil => cases hfind
  | cons b0 rest ih =>
    by_cases hb : b0.isEmpty
    · have hb2 : (!b0.isEmpty) = false := by simp [hb]
      rw [List.find?_cons, hb2] at hfind
      have hrest := ih hfind
      rw [runBatches] at hrest ⊢
      simp only [List.foldl_cons, if_pos hb]
      rw [hrest]
      simp [List.filter_cons, hb2]
    · have hb2 : (!b0.isEmpty) = true := by simp [hb]
      rw [List.find?_cons, hb2] at hfind
      have heq : b0 = b := by simpa using hfind
      rw [← heq]
      rw [runBatches]
      simp only [List.foldl_cons, if_neg hb]
      have hstep0 : csvWriteBatch none b0 =
          (some (computeSchema b0), b0.map (projectRow (computeSchema b0))) := rfl
      rw [hstep0, runBatches_frozen (computeSchema b0) rest]
      simp [List.filter_cons, hb2]

-- ---------------------------------------------------------------------------
-- Retry-pass fold characterization.
-- ---------------------------------------------------------------------------

theorem retryPass_aux (hint : Option (List String)) (maxAttempts : Nat)
    (oracle : String → Nat → AttemptOutcome) :
    ∀ (days sm : List String) (t : Nat),
      days.foldl (fun acc d =>
        match (retryDayGo hint d ((List.range maxAttempts).map (oracle d))).1 with
        | some recs => (acc.1, acc.2 + recs.length)
        | none => (acc.1 ++ [d], acc.2)) (sm, t) =
      (sm ++ days.filter
        (fun dy => ((retryDayGo hint dy ((List.range maxAttempts).map (oracle dy))).1).isNone),
       t + (days.map
         (fun dy => (((retryDayGo hint dy ((List.range maxAttempts).map (oracle dy))).1).getD []).length)).sum) := by
  intro days
  induction days with
  | nil => intro sm t; simp
  | cons d rest ih =>
    intro sm t
    simp only [List.foldl_cons, List.filter_cons, List.map_cons, List.sum_cons]
    cases hr : (retryDayGo hint d ((List.range maxAttempts).map (oracle d))).1 with
    | some recs =>
      rw [ih]
      simp [hr, Nat.add_assoc]
    | none =>
      rw [ih]
      simp [hr, List.append_assoc]

-- ---------------------------------------------------------------------------
-- Hostname-derivation lemmas.
-- ---------------------------------------------------------------------------

theorem hostname_not_mem_candidateKeys : "hostname" ∉ candidateKeys := by decide

theorem ensureHostnameRec_eq_spec (rec : Record) :
    ensureHostnameRec rec = hostDeriveSpecStep rec := by
  rw [ensureHostnameRec, hostDeriveSpecStep, findCandidate_eq_head]

theorem ensureHostnameRec_idem (rec : Record) :
    ensureHostnameRec (ensureHostnameRec rec) = ensureHostnameRec rec := by
  by_cases h1 : (lookup rec "hostname").any truthy = true
  · simp [ensureHostnameRec, h1]
  · cases hc : findCandidate rec candidateKeys with
    | none =>
      have h2 : ensureHostnameRec rec = rec := by simp [ensureHostnameRec, h1, hc]
      rw [h2]
      exact h2
    | some s =>
      have h2 : ensureHostnameRec rec =
          insertKV rec "hostname" (.str (_extract_hostname (.str s))) := by
        simp [ensureHostnameRec, h1, hc]
      rw [h2]
      have hl := lookup_insertKV_self rec "hostname" (.str (_extract_hostname (.str s)))
      by_cases hh : _extract_hostname (.str s) = ""
      · have hany : ((lookup (insertKV rec "hostname"
            (.str (_extract_hostname (.str s)))) "hostname").any truthy) = false := by
          rw [hl]
          simp [truthy, hh]
        have hfc : findCandidate (insertKV rec "hostname"
            (.str (_extract_hostname (.str s)))) candidateKeys = some s := by
          rw [findCandidate_insertKV rec "hostname" _ candidateKeys
            hostname_not_mem_candidateKeys]
          exact hc
        rw [ensureHostnameRec, if_neg (by rw [hany]; simp), hfc]
        exact insertKV_insertKV rec "hostname" _ _
      · rw [ensureHostnameRec, if_pos (by rw [hl]; simpa [truthy] using hh)]

theorem ensureHostname_map (recs : List Record) :
    _ensure_hostname_column recs = recs.map ensureHostnameRec := rfl

-- ---------------------------------------------------------------------------
-- Normalizer bridge lemmas.
-- ---------------------------------------------------------------------------

theorem rowsToRecords_eq_filterMap (names : List String) (rows : List Json) :
    rowsToRecords names rows = rows.filterMap (rowToRecord names) := by
  rw [rowsToRecords]
  exact (foldl_appendOpt_filterMap (rowToRecord names) rows []).trans (List.nil_append _)

theorem dataRecords_eq_filterMap (items : List Json) :
    dataRecords items = items.filterMap dataItemOpt := by
  rw [dataRecords]
  exact (foldl_appendOpt_filterMap dataItemOpt items []).trans (List.nil_append _)

theorem buildRowRec_foldl_pairs (names : List String) (items : List Json) :
    buildRowRec names items =
      (items.enum.map (fun iv => (colNameAt names iv.1, iv.2))).foldl
        (fun acc p => insertKV acc p.1 p.2) [] := by
  rw [buildRowRec, List.foldl_map]

theorem buildRowRec_lookup (names : List String) (items : List Json)
    (hnd : (items.enum.map (fun iv => colNameAt names iv.1)).Nodup)
    (i : Nat) (h : i < items.length) :
    lookup (buildRowRec names items) (colNameAt names i) = some (items.get ⟨i, h⟩) := by
  rw [buildRowRec_foldl_pairs]
  apply lookup_foldl_insertKV_mem
  · rw [List.map_map]
    exact hnd
  · have hm : (i, items.get ⟨i, h⟩) ∈ items.enum := by
      rw [List.mk_mem_enum_iff_getElem?]
      simp [List.getElem?_eq_getElem h]
    exact List.mem_map_of_mem _ hm

/-- Evaluation of the spec's example range: 2025-07-01T00:00:00Z is Unix
second 1751328000, 2025-07-03T12:00:00Z is 1751544000; the loop produces the
three whole days 07-01, 07-02 and 07-03, the third running to
2025-07-04T00:00:00Z = 1751587200. -/
theorem windows_july : windows 1751328000 1751544000 =
    [(1751328000, 1751414400), (1751414400, 1751500800), (1751500800, 1751587200)] := by
  rw [windows_formula]
  decide

-- ---------------------------------------------------------------------------
-- Claim theorems.
-- ---------------------------------------------------------------------------

/-- **C1** counterexample.  For start = 2025-07-01T00:00:00Z (Unix second
1751328000) and end = 2025-07-03T12:00:00Z (1751544000), the day loop of
lines 430-444 produces a third window that extends to 2025-07-04T00:00:00Z
(1751587200), which exceeds the requested end instant; in particular the last
window is not `[07-03T00:00:00Z, 07-03T12:00:00Z)` as the claim states. -/
theorem C1_counterexample :
    (1751500800, 1751587200) ∈ windows 1751328000 1751544000 ∧
    1751544000 < 1751587200 ∧
    (windows 1751328000 1751544000).getLast? ≠ some (1751500800, 1751544000) := by
  rw [windows_july]
  refine ⟨by simp, by norm_num, by decide⟩

/-- **C1** (amended).  The day-range paginator enumerates consecutive
one-day windows covering the range rounded outward to whole UTC days: the
first window starts at the midnight of the start instant's day and the last
window ends at the end instant's day boundary rounded up to midnight (so it
may exceed the requested end instant); for start = 2025-07-01T00:00:00Z and
end = 2025-07-03T12:00:00Z exactly 3 windows are produced and the third
window ends at 2025-07-04T00:00:00Z. -/
theorem C1_day_windows (s e : Nat) :
    windows s e =
      (List.range ((endDayBound e - truncDay s) / dayLen)).map
        (fun i => (truncDay s + dayLen * i, truncDay s + dayLen * (i + 1))) ∧
    (windows 1751328000 1751544000).length = 3 ∧
    (windows 1751328000 1751544000).getLast? = some (1751500800, 1751587200) := by
  refine ⟨windows_formula s e, ?_, ?_⟩ <;> rw [windows_july] <;> rfl

/-- **C5** counterexample.  The standard (non-MAX) pass normalizes the
payload at line 709 and writes it without running hostname derivation: for a
payload whose records carry a `url` but no `hostname`, the standard pass
emits the records unchanged, although hostname derivation would have added
`hostname = "a.com"` — so derivation does not run on the standard pass. -/
theorem C5_counterexample :
    standardStep .csv (some ["allEdgeBytes"])
        (.response 200 (.json (.obj [("columns", .arr [.str "url"]),
          ("rows", .arr [.arr [.str "a.com/x"]])]))) =
      .records [[("url", .str "a.com/x")]] ∧
    _ensure_hostname_column [[("url", Json.str "a.com/x")]] =
      [[("url", Json.str "a.com/x"), ("hostname", Json.str "a.com")]] ∧
    ([[("url", Json.str "a.com/x")]] : List Record) ≠
      [[("url", Json.str "a.com/x"), ("hostname", Json.str "a.com")]] := by
  refine ⟨rfl, rfl, ?_⟩
  simp

/-- **C5** (amended).  Hostname derivation runs as a post-processing step on
every batch of normalized records in the day-split pass and in the retry pass
(but not in the standard pass): both passes write the batch
`_ensure_hostname_column(stampDay(normalize(payload)))`, and per record the
derivation is exactly the spec's description — a record with a truthy
`hostname` is untouched, otherwise the first non-empty string among
`hostname.url`, `url`, `request.url` has its host extracted into
`hostname`. -/
theorem C5_hostname_derivation (hint : Option (List String)) (d : String) :
    (∀ (j : Json) (status : Nat), status < 400 →
       mainDayStep hint d (.response status (.json j)) =
         (if (dayBatch hint d j).isEmpty then .noData else .wrote (dayBatch hint d j))) ∧
    (∀ (j : Json) (status : Nat), status < 400 →
       attemptRecords hint d (.response status (.json j)) =
         (if (dayBatch hint d j).isEmpty then none else some (dayBatch hint d j))) ∧
    (∀ j, dayBatch hint d j =
       _ensure_hostname_column (stampDay d (_records_from_response j hint))) ∧
    (∀ recs, _ensure_hostname_column recs = recs.map hostDeriveSpecStep) := by
  refine ⟨?_, ?_, fun j => rfl, ?_⟩
  · intro j status hs
    rw [mainDayStep, if_neg (by omega)]
  · intro j status hs
    rw [attemptRecords, if_neg (by omega)]
  · intro recs
    rw [ensureHostname_map]
    exact List.map_congr_left fun r hr => ensureHostnameRec_eq_spec r

/-- **C5** witness: a concrete successful day-split window at status 200
whose batch gets the derived hostname column. -/
theorem C5_hostname_derivation_witness :
    mainDayStep (some ["m"]) "2025-07-05"
        (.response 200 (.json (.obj [("columns", .arr [.str "url"]),
          ("rows", .arr [.arr [.str "h.example/x"]])]))) =
      .wrote [[("url", Json.str "h.example/x"), ("day", Json.str "2025-07-05"),
        ("hostname", Json.str "h.example")]] := by
  have h := (C5_hostname_derivation (some ["m"]) "2025-07-05").1
      (.obj [("columns", .arr [.str "url"]), ("rows", .arr [.arr [.str "h.example/x"]])])
      200 (by decide)
  rw [h]
  rfl

/-- **C8**: hostname derivation is idempotent — applying
`_ensure_hostname_column` twice gives the same record list (hence the same
`hostname` values) as applying it once. -/
theorem C8_hostname_idempotent (recs : List Record) :
    _ensure_hostname_column (_ensure_hostname_column recs) = _ensure_hostname_column recs := by
  rw [ensureHostname_map, ensureHostname_map, List.map_map]
  exact List.map_congr_left fun r hr => by
    simp only [Function.comp_apply]
    exact ensureHostnameRec_idem r

/-- **C2**: the column schema is computed once per run from the first
non-empty batch of records — a permutation of the discovered keys, sorted
with the preferred fields (day, hostname, url, timestamp, cpcode, interval)
first and everything else alphabetically — and once frozen every
subsequently written record is projected onto exactly this schema with the
empty string for absent fields.  For the batch `[{a:1,b:2},{a:3,c:4}]` the
frozen schema is `a,b,c` and the second record's `b` cell is written as
`""`. -/
theorem C2_schema_freeze :
    computeSchema [[("a", .num 1), ("b", .num 2)], [("a", .num 3), ("c", .num 4)]] =
      ["a", "b", "c"] ∧
    projectRow ["a", "b", "c"] [("a", .num 3), ("c", .num 4)] =
      [Json.num 3, Json.str "", Json.num 4] ∧
    computeSchema [[("url", .str "u"), ("allEdgeBytes", .num 7), ("day", .str "d")]] =
      ["day", "url", "allEdgeBytes"] ∧
    (∀ recs : List Record,
       (computeSchema recs).Perm (inferKeys recs) ∧
       List.Sorted (schemaRel preferredMax) (computeSchema recs)) ∧
    (∀ (S : List String) (recs : List Record),
       csvWriteBatch (some S) recs = (some S, recs.map (projectRow S))) ∧
    (∀ (batches : List (List Record)) (b : List Record),
       batches.find? (fun r => !r.isEmpty) = some b →
       runBatches batches =
         (some (computeSchema b),
          ((batches.filter (fun r => !r.isEmpty)).map
            (fun recs => recs.map (projectRow (computeSchema b)))).flatten)) := by
  refine ⟨by decide, rfl, by decide, ?_, fun S recs => rfl, runBatches_spec⟩
  intro recs
  exact ⟨List.perm_insertionSort _ _, List.sorted_insertionSort _ _⟩

/-- **C2** witness: a run whose first batch is empty freezes the schema
`a,b,c` from the first non-empty batch and projects every later record onto
it, writing `""` for absent fields. -/
theorem C2_schema_freeze_witness :
    runBatches [[],
        [[("a", Json.num 1), ("b", Json.num 2)], [("a", Json.num 3), ("c", Json.num 4)]],
        [[("c", Json.num 9)]]] =
      (some ["a", "b", "c"],
       [[Json.num 1, Json.num 2, Json.str ""],
        [Json.num 3, Json.str "", Json.num 4],
        [Json.str "", Json.str "", Json.num 9]]) := by
  have h := C2_schema_freeze.2.2.2.2.2
      [[], [[("a", Json.num 1), ("b", Json.num 2)], [("a", Json.num 3), ("c", Json.num 4)]],
       [[("c", Json.num 9)]]]
      [[("a", Json.num 1), ("b", Json.num 2)], [("a", Json.num 3), ("c", Json.num 4)]] rfl
  rw [h]
  rfl

/-- **C3**: for each no-data day the Retry Coordinator performs at most the
configured number of attempts (one outcome consumed per attempt; the second
component of `retryDayGo` counts the failed attempts, each of which is
followed by one fixed-interval sleep); the first attempt that yields at
least one record ends the loop with that batch after exactly
`pre.length` failures; a day whose attempts all fail returns `none` having
used every attempt; and over the whole pass the still-missing list is
exactly the days whose retries all failed while every recovered day's batch
length is added to the row total. -/
theorem C3_retry_coordinator (hint : Option (List String)) (d : String) :
    (∀ outs : List AttemptOutcome, (retryDayGo hint d outs).2 ≤ outs.length) ∧
    (∀ (pre : List AttemptOutcome) (o : AttemptOutcome) (post : List AttemptOutcome)
       (recs : List Record),
       (∀ o2 ∈ pre, attemptRecords hint d o2 = none) →
       attemptRecords hint d o = some recs →
       retryDayGo hint d (pre ++ o :: post) = (some recs, pre.length)) ∧
    (∀ outs : List AttemptOutcome,
       (∀ o2 ∈ outs, attemptRecords hint d o2 = none) →
       retryDayGo hint d outs = (none, outs.length)) ∧
    (∀ (maxAttempts : Nat) (oracle : String → Nat → AttemptOutcome) (days : List String),
       retryPass hint maxAttempts oracle days =
         (days.filter (fun dy =>
            ((retryDayGo hint dy ((List.range maxAttempts).map (oracle dy))).1).isNone),
          (days.map (fun dy =>
            (((retryDayGo hint dy ((List.range maxAttempts).map (oracle dy))).1).getD
              []).length)).sum)) := by
  refine ⟨?_, ?_, ?_, ?_⟩
  · intro outs
    induction outs with
    | nil => simp [retryDayGo]
    | cons o rest ih =>
      simp only [retryDayGo, List.length_cons]
      cases attemptRecords hint d o with
      | some recs => simp
      | none => exact Nat.succ_le_succ ih
  · intro pre o post recs hpre ho
    induction pre with
    | nil =>
      simp only [List.nil_append, retryDayGo, ho, List.length_nil]
    | cons o0 rest ih =>
      have h0 : attemptRecords hint d o0 = none := hpre o0 (List.mem_cons_self _ _)
      have hrest : ∀ o2 ∈ rest, attemptRecords hint d o2 = none :=
        fun o2 h2 => hpre o2 (List.mem_cons_of_mem _ h2)
      simp only [List.cons_append, retryDayGo, h0, List.length_cons, List.append_eq]
      rw [ih hrest]
  · intro outs hfail
    induction outs with
    | nil => rfl
    | cons o rest ih =>
      have h0 : attemptRecords hint d o = none := hfail o (List.mem_cons_self _ _)
      have hrest : ∀ o2 ∈ rest, attemptRecords hint d o2 = none :=
        fun o2 h2 => hfail o2 (List.mem_cons_of_mem _ h2)
      simp only [retryDayGo, h0, List.length_cons]
      rw [ih hrest]
  · intro maxAttempts oracle days
    rw [retryPass, retryPass_aux]
    simp

/-- **C3** witness: a day that fails 9 times (transport error, HTTP >= 400,
empty body, non-JSON body, zero records) and succeeds on the 10th attempt
(the default maximum) recovers with its one-record batch after exactly 9
failed attempts (and 9 sleeps). -/
theorem C3_retry_coordinator_witness :
    retryDayGo (some ["m"]) "2025-07-02"
      [.transportError, .response 500 .empty, .response 404 .empty, .response 200 .empty,
       .response 200 .nonJson,
       .response 200 (.json (.obj [("columns", .arr []), ("rows", .arr [])])),
       .transportError, .response 200 .empty, .response 503 .nonJson,
       .response 200 (.json (.obj [("columns", .arr [.str "url"]),
         ("rows", .arr [.arr [.str "h.example/x"]])]))] =
      (some [[("url", Json.str "h.example/x"), ("day", Json.str "2025-07-02"),
        ("hostname", Json.str "h.example")]], 9) := by
  have h := (C3_retry_coordinator (some ["m"]) "2025-07-02").2.1
      [.transportError, .response 500 .empty, .response 404 .empty, .response 200 .empty,
       .response 200 .nonJson,
       .response 200 (.json (.obj [("columns", .arr []), ("rows", .arr [])])),
       .transportError, .response 200 .empty, .response 503 .nonJson]
      (.response 200 (.json (.obj [("columns", .arr [.str "url"]),
        ("rows", .arr [.arr [.str "h.example/x"]])])))
      []
      [[("url", Json.str "h.example/x"), ("day", Json.str "2025-07-02"),
        ("hostname", Json.str "h.example")]]
      (by intro o2 h2; fin_cases h2 <;> rfl)
      rfl
  exact h

/-- **C4**: for every JSON object whose `columns` and `rows` values are
lists, the normalizer takes each column name from the entry itself (its
`name` field when the entry is an object, via Python `str`), zips each
list-valued row positionally — with fallback name `col{i}` for positions
beyond the column list — and passes row entries that are already objects
through unchanged (other row entries are skipped). -/
theorem C4_columns_rows (kvs : List (String × Json)) (cols rows : List Json)
    (hint : Option (List String))
    (hc : getArr kvs "columns" = some cols) (hr : getArr kvs "rows" = some rows) :
    _records_from_response (.obj kvs) hint =
      rows.filterMap (rowToRecord (cols.map columnEntryName)) ∧
    (∀ o : List (String × Json),
       rowToRecord (cols.map columnEntryName) (.obj o) = some o) ∧
    (∀ items : List Json,
       (items.enum.map (fun iv => colNameAt (cols.map columnEntryName) iv.1)).Nodup →
       ∀ (i : Nat) (h : i < items.length),
         lookup (buildRowRec (cols.map columnEntryName) items)
             (colNameAt (cols.map columnEntryName) i) =
           some (items.get ⟨i, h⟩)) := by
  refine ⟨?_, fun o => rfl, fun items hnd i h => buildRowRec_lookup _ items hnd i h⟩
  simp only [_records_from_response, hc, hr]
  exact rowsToRecords_eq_filterMap _ rows

/-- **C4** witness: column entries `{"name": "url"}` and `"bytes"`; a
three-element row gets the fallback name `col2`, a dict row passes through,
and a scalar row is skipped. -/
theorem C4_columns_rows_witness :
    _records_from_response
        (.obj [("columns", .arr [.obj [("name", .str "url")], .str "bytes"]),
               ("rows", .arr [.arr [.str "a.com/x", .num 5, .bool true],
                              .obj [("x", .num 1)], .num 3])])
        (some ["m"]) =
      [[("url", Json.str "a.com/x"), ("bytes", Json.num 5), ("col2", Json.bool true)],
       [("x", Json.num 1)]] ∧
    lookup (buildRowRec ["url", "bytes"] [.str "a.com/x", .num 5, .bool true]) "col2" =
      some (Json.bool true) := by
  have h := C4_columns_rows
      [("columns", .arr [.obj [("name", .str "url")], .str "bytes"]),
       ("rows", .arr [.arr [.str "a.com/x", .num 5, .bool true],
                      .obj [("x", .num 1)], .num 3])]
      [.obj [("name", .str "url")], .str "bytes"]
      [.arr [.str "a.com/x", .num 5, .bool true], .obj [("x", .num 1)], .num 3]
      (some ["m"]) rfl rfl
  constructor
  · rw [h.1]
    rfl
  · have h2 := h.2.2 [.str "a.com/x", .num 5, .bool true] (by decide) 2 (by decide)
    exact h2

/-- **C6** counterexample.  For the payload
`{"m": 5, "data": {"m": {"u": 1}}}` with hint `["m"]`, the data object maps
every hinted metric to a nested object keyed by URL, yet the normalizer does
not build one record per URL: because the hinted name `m` is present as a
key of the payload itself, the payload (whose `m` is not a dict) is chosen
as the candidate map, the metric branch is skipped, and the deep-flattening
fallback produces a single record with no `url` field. -/
theorem C6_counterexample :
    _records_from_response
        (.obj [("m", .num 5), ("data", .obj [("m", .obj [("u", .num 1)])])])
        (some ["m"]) = [[("m", Json.num 5), ("data.m.u", Json.num 1)]] ∧
    getObj [("m", Json.num 5), ("data", Json.obj [("m", Json.obj [("u", Json.num 1)])])]
        "data" = some [("m", Json.obj [("u", Json.num 1)])] ∧
    (getObj [("m", Json.obj [("u", Json.num 1)])] "m").isSome = true ∧
    lookup [("m", Json.num 5), ("data.m.u", Json.num 1)] "url" = none :=
  ⟨rfl, rfl, rfl, rfl⟩

/-- **C6** (amended).  When a non-empty metrics hint is supplied and neither
the columns+rows branch nor the list-valued `data` branch applies, the
candidate map is the payload itself whenever every hinted name is a key of
the payload (whatever its value), and only otherwise the dict-valued `data`
object; if the chosen candidate maps every hinted metric to an object, the
normalizer builds exactly one record per URL in the union of the hinted
metrics' key sets, in ascending sorted order without duplicates, each record
having a `url` field plus one field per hinted metric whose value for that
URL is neither null/absent nor an object nor a list. -/
theorem C6_metric_map (kvs mm : List (String × Json)) (hints : List String)
    (hcr : getArr kvs "columns" = none ∨ getArr kvs "rows" = none)
    (hdl : getArr kvs "data" = none)
    (hne : hints ≠ [])
    (hsel : (if hints.all (fun m => (lookup kvs m).isSome) then some kvs
             else getObj kvs "data") = some mm)
    (hobj : hints.all (fun m => (getObj mm m).isSome) = true) :
    _records_from_response (.obj kvs) (some hints) =
      (sortedUrls mm hints).map (metricRecFor mm hints) ∧
    List.Sorted (fun a b => strLe a b = true) (sortedUrls mm hints) ∧
    (sortedUrls mm hints).Nodup ∧
    (hints.Nodup → "url" ∉ hints →
       ∀ u, lookup (metricRecFor mm hints u) "url" = some (.str u) ∧
         ∀ m ∈ hints, lookup (metricRecFor mm hints u) m =
           scalarOnly (metricValAt mm m u)) := by
  have hTruthy : hintTruthy (some hints) = true := by
    cases hints with
    | nil => exact absurd rfl hne
    | cons a l => rfl
  refine ⟨?_, List.sorted_insertionSort _ _,
    ((List.perm_insertionSort _ _).nodup_iff).mpr (List.nodup_dedup _), ?_⟩
  · have hobjF : objFallback kvs (some hints) = metricMapRecords mm hints := by
      rw [objFallback]
      simp only [hdl, Option.getD_some, hTruthy, Bool.true_and]
      rw [hsel]
      simp only [hobj, if_pos trivial]
    rcases hcr with h | h
    · simp only [_records_from_response, h]
      exact hobjF
    · cases hcol : getArr kvs "columns" with
      | none =>
        simp only [_records_from_response, hcol]
        exact hobjF
      | some cols =>
        simp only [_records_from_response, hcol, h]
        exact hobjF
  · intro hNd hUrl u
    have hne2 : ∀ m ∈ hints, m ≠ "url" := fun m hm he => hUrl (he ▸ hm)
    constructor
    · rw [metricRecFor_eq_condInsertFold,
        lookup_condInsertFold_not_mem _ hints "url" hUrl]
      simp [lookup]
    · intro m hm
      rw [metricRecFor_eq_condInsertFold,
        lookup_condInsertFold_mem _ hints m hNd hm]
      cases hg : scalarOnly (metricValAt mm m u) with
      | some v => rfl
      | none => simp [lookup, Ne.symm (hne2 m hm)]

/-- **C6** witness: `{"data": {"m": {"b":1, "a":2, "c":null}}}` with hint
`["m"]` yields one record per URL in ascending order `a, b, c`, the `c`
record omitting the null metric value. -/
theorem C6_metric_map_witness :
    _records_from_response
        (.obj [("data", .obj [("m", .obj [("b", .num 1), ("a", .num 2), ("c", .null)])])])
        (some ["m"]) =
      [[("url", Json.str "a"), ("m", Json.num 2)],
       [("url", Json.str "b"), ("m", Json.num 1)],
       [("url", Json.str "c")]] ∧
    lookup (metricRecFor
        [("m", Json.obj [("b", Json.num 1), ("a", Json.num 2), ("c", Json.null)])]
        ["m"] "c") "m" = none := by
  have h := C6_metric_map
      [("data", .obj [("m", .obj [("b", .num 1), ("a", .num 2), ("c", .null)])])]
      [("m", Json.obj [("b", Json.num 1), ("a", Json.num 2), ("c", Json.null)])]
      ["m"] (Or.inl rfl) rfl (by decide) rfl rfl
  constructor
  · rw [h.1]
    rfl
  · exact (h.2.2.2 (by decide) (by decide) "c").2 "m" (by decide)

/-- **C7**: an HTTP status >= 400 is fatal (exit code 1) in the standard
pass and in the main day-splitting pass, whereas inside the Retry
Coordinator the same status only fails the current attempt: the attempt
yields no records and the loop proceeds to the next attempt with one more
failed attempt (and sleep) counted. -/
theorem C7_status_ge_400 (hint : Option (List String)) (d : String) (fmt : OutFormat)
    (status : Nat) (body : BodyContent) (h : 400 ≤ status) :
    mainDayStep hint d (.response status body) = .exitCode 1 ∧
    standardStep fmt hint (.response status body) = .exitCode 1 ∧
    attemptRecords hint d (.response status body) = none ∧
    (∀ rest : List AttemptOutcome,
       retryDayGo hint d (.response status body :: rest) =
         ((retryDayGo hint d rest).1, (retryDayGo hint d rest).2 + 1)) := by
  have h1 : attemptRecords hint d (.response status body) = none := by
    rw [attemptRecords.eq_def]
    dsimp only
    rw [if_pos h]
  refine ⟨?_, ?_, h1, ?_⟩
  · rw [mainDayStep.eq_def]
    dsimp only
    rw [if_pos h]
  · rw [standardStep.eq_def]
    dsimp only
    rw [if_pos h]
  intro rest
  simp only [retryDayGo, h1]

/-- **C7** witness at status 404. -/
theorem C7_status_ge_400_witness :
    mainDayStep none "2025-07-01" (.response 404 .empty) = .exitCode 1 ∧
    standardStep .json none (.response 404 .empty) = .exitCode 1 ∧
    attemptRecords none "2025-07-01" (.response 404 .empty) = none ∧
    retryDayGo none "2025-07-01" [.response 404 .empty] = (none, 1) := by
  have h := C7_status_ge_400 none "2025-07-01" .json 404 .empty (by decide)
  exact ⟨h.1, h.2.1, h.2.2.1, (h.2.2.2 []).trans rfl⟩

/-- **C9**: the Normalizer is total — it is a total function of the embedded
JSON value and hint, and on each unhandled shape it degrades rather than
failing: a list input maps object elements through deep flattening and every
other element to `{"value": element}`; a scalar input yields the single
record `{"value": input}`; row entries that are neither lists nor objects
and data-list entries that are not objects are skipped. -/
theorem C9_normalizer_total (hint : Option (List String)) :
    (∀ xs : List Json, _records_from_response (.arr xs) hint = xs.map listItemRec) ∧
    (∀ it : Json, (∀ kvs, it ≠ .obj kvs) → listItemRec it = [("value", it)]) ∧
    (_records_from_response .null hint = [[("value", .null)]]) ∧
    (∀ b, _records_from_response (.bool b) hint = [[("value", .bool b)]]) ∧
    (∀ n, _records_from_response (.num n) hint = [[("value", .num n)]]) ∧
    (∀ s, _records_from_response (.str s) hint = [[("value", .str s)]]) ∧
    (∀ names rows, rowsToRecords names rows = rows.filterMap (rowToRecord names)) ∧
    (∀ names it, (∀ xs, it ≠ .arr xs) → (∀ kvs, it ≠ .obj kvs) →
       rowToRecord names it = none) ∧
    (∀ items, dataRecords items = items.filterMap dataItemOpt) ∧
    (∀ it : Json, (∀ kvs, it ≠ .obj kvs) → dataItemOpt it = none) := by
  refine ⟨fun xs => rfl, ?_, rfl, fun b => rfl, fun n => rfl, fun s => rfl,
    rowsToRecords_eq_filterMap, ?_, dataRecords_eq_filterMap, ?_⟩
  · intro it hno
    cases it with
    | obj kvs => exact absurd rfl (hno kvs)
    | null => rfl
    | bool b => rfl
    | num n => rfl
    | str s => rfl
    | arr xs => rfl
  · intro names it hna hno
    cases it with
    | obj kvs => exact absurd rfl (hno kvs)
    | arr xs => exact absurd rfl (hna xs)
    | null => rfl
    | bool b => rfl
    | num n => rfl
    | str s => rfl
  · intro it hno
    cases it with
    | obj kvs => exact absurd rfl (hno kvs)
    | null => rfl
    | bool b => rfl
    | num n => rfl
    | str s => rfl
    | arr xs => rfl

/-- **C9** witness: a mixed list payload and an unhandled row shape. -/
theorem C9_normalizer_total_witness :
    _records_from_response (.arr [.num 7, .obj [("a", .obj [("b", .num 1)])]]) none =
      [[("value", Json.num 7)], [("a.b", Json.num 1)]] ∧
    rowToRecord ["x"] (.num 3) = none := by
  have h := C9_normalizer_total none
  constructor
  · rw [h.1]
    rfl
  · exact h.2.2.2.2.2.2.2.1 ["x"] (.num 3) (fun xs hx => Json.noConfusion hx)
      (fun kvs hx => Json.noConfusion hx)

/-- **C10**: hostname derivation modifies at most the `hostname` field of
each record: the batch keeps its length, a record with a truthy `hostname`
is left entirely unchanged, every field other than `hostname` keeps its
value, and no field is removed. -/
theorem C10_hostname_frame (recs : List Record) :
    (_ensure_hostname_column recs).length = recs.length ∧
    ∀ (i : Nat) (hi : i < recs.length) (hi2 : i < (_ensure_hostname_column recs).length),
      (((lookup (recs.get ⟨i, hi⟩) "hostname").any truthy) = true →
        (_ensure_hostname_column recs).get ⟨i, hi2⟩ = recs.get ⟨i, hi⟩) ∧
      (∀ k, k ≠ "hostname" →
        lookup ((_ensure_hostname_column recs).get ⟨i, hi2⟩) k =
          lookup (recs.get ⟨i, hi⟩) k) ∧
      (∀ k, (lookup (recs.get ⟨i, hi⟩) k).isSome = true →
        (lookup ((_ensure_hostname_column recs).get ⟨i, hi2⟩) k).isSome = true) := by
  refine ⟨by simp [_ensure_hostname_column], ?_⟩
  intro i hi hi2
  have hget : (_ensure_hostname_column recs).get ⟨i, hi2⟩ =
      ensureHostnameRec (recs.get ⟨i, hi⟩) := by
    simp [_ensure_hostname_column]
  rw [hget]
  refine ⟨fun ht => by rw [ensureHostnameRec, if_pos ht], ?_, ?_⟩
  · intro k hk
    rw [ensureHostnameRec]
    by_cases h1 : (lookup (recs.get ⟨i, hi⟩) "hostname").any truthy = true
    · rw [if_pos h1]
    · rw [if_neg h1]
      cases hc : findCandidate (recs.get ⟨i, hi⟩) candidateKeys with
      | none => rfl
      | some s => exact lookup_insertKV_ne _ "hostname" k _ hk
  · intro k hsome
    rw [ensureHostnameRec]
    by_cases h1 : (lookup (recs.get ⟨i, hi⟩) "hostname").any truthy = true
    · rw [if_pos h1]
      exact hsome
    · rw [if_neg h1]
      cases hc : findCandidate (recs.get ⟨i, hi⟩) candidateKeys with
      | none => exact hsome
      | some s => exact isSome_lookup_insertKV _ "hostname" k _ hsome

/-- **C10** witness: deriving the hostname for a record leaves its other
fields (`url`, `z`) untouched. -/
theorem C10_hostname_frame_witness :
    lookup ((_ensure_hostname_column [[("url", Json.str "a.com/x"), ("z", Json.num 1)]]).get
        ⟨0, by decide⟩) "z" = some (Json.num 1) := by
  have h := C10_hostname_frame [[("url", Json.str "a.com/x"), ("z", Json.num 1)]]
  have h2 := (h.2 0 (by decide) (by decide)).2.1 "z" (by decide)
  rw [h2]
  rfl

end Report
